import Mathlib

/-!
Verification development for the json-chunks-to-embeddings pipeline.

The Python sources are shallowly embedded below:
- `src/providers/base_provider.py` : `validate_texts`
- `src/providers/gemini_provider.py`, `openai_provider.py`,
  `anthropic_provider.py` : `generate_embeddings` and `get_model_info`
- `src/providers/provider_factory.py` : `create_provider`,
  `get_supported_providers`, `get_provider_info`
- `src/json_to_embeddings.py` : `process_embeddings`

Python dictionaries (records, configuration, provider-info results) are
modelled as association lists; Python values that may appear in a record
field are modelled by `PyVal`, parameterised by an abstract embedding-vector
type `E` (the numeric content of embedding vectors is never inspected by the
code under verification).  Exceptions become `Except`; the network is an
abstract oracle function passed to each provider; the sequence of calls a
function issues is returned explicitly as a trace so that call-count
properties can be stated.
-/

set_option maxRecDepth 2000

/-- A Python value that can sit in a record field: a string, a number,
an embedding vector (abstract type `E`), or `None`. -/
inductive PyVal (E : Type) where
  | str (s : String)
  | num (n : Int)
  | emb (e : E)
  | pynone
deriving DecidableEq

/-- A record (a Python dict) is an association list from field names to
values, in insertion order. -/
abbrev Record (E : Type) := List (String × PyVal E)

/-- Python `d[k]` / `d.get(k)` lookup: first binding of the key wins. -/
def dictGet {V : Type} : List (String × V) → String → Option V
  | [], _ => none
  | (k, v) :: rest, key => if k = key then some v else dictGet rest key

/-- Python `d[k] = v` on a dict: overwriting keeps the key at its original
position; a new key is appended at the end (insertion order). -/
def dictSet {V : Type} : List (String × V) → String → V → List (String × V)
  | [], key, v => [(key, v)]
  | (k, w) :: rest, key, v =>
      if k = key then (key, v) :: rest else (k, w) :: dictSet rest key v

/-- Errors raised by providers and by the dispatcher.  The Python code
raises `ValueError` from `validate_texts` (the spec's `ValidationError`),
a wrapped `Exception` from API failures (the spec's `ProviderError`), and
a `KeyError` from `item['content']` on a record missing the field. -/
inductive Err where
  | validation (msg : String)
  | provider (msg : String)
  | keyError (key : String)
deriving DecidableEq

/-- `isinstance(text, str)`. -/
def isStr {E : Type} : PyVal E → Bool
  | .str _ => true
  | _ => false

/-- Python truthiness of `text.strip()` for a string: `True` exactly when
some non-whitespace character remains (i.e. the string is not empty or
all-whitespace). `goodText` is the condition under which `validate_texts`
accepts one element. -/
def goodText {E : Type} : PyVal E → Bool
  | .str s => !(s.toList.all Char.isWhitespace)
  | _ => false

/-- The indexed loop of `BaseProvider.validate_texts`: the first element
that is not a string, or is blank after trimming, raises `ValueError`. -/
def validateLoop {E : Type} (i : Nat) : List (PyVal E) → Except Err Unit
  | [] => .ok ()
  | t :: rest =>
      if !(isStr t) then
        .error (.validation ("Text " ++ toString i ++ " must be a string"))
      else if !(goodText t) then
        .error (.validation ("Text " ++ toString i ++ " cannot be empty"))
      else
        validateLoop (i + 1) rest

/-- `BaseProvider.validate_texts` (src/providers/base_provider.py, lines
52-69): empty list raises, then each element is checked in order. -/
def validate_texts {E : Type} (texts : List (PyVal E)) : Except Err Unit :=
  if texts.isEmpty then
    .error (.validation "Text list cannot be empty")
  else
    validateLoop 0 texts

/-- The spec-level predicate for invalid input to `generateEmbeddings`:
the sequence is empty, or some element is not a string, or some element is
empty/blank after trimming whitespace. -/
def badTexts {E : Type} (texts : List (PyVal E)) : Prop :=
  texts = [] ∨ ∃ t ∈ texts, goodText t = false

instance {E : Type} : (texts : List (PyVal E)) → Decidable (badTexts texts)
  | [] => isTrue (Or.inl rfl)
  | t :: ts =>
      decidable_of_iff (∃ x ∈ t :: ts, goodText x = false) (by simp [badTexts])

/-- An observable step a provider's `generate_embeddings` takes: lazy
construction of the underlying API client, or one underlying API request
carrying the texts it submits. -/
inductive GenEvent (E : Type) where
  | clientInit
  | call (texts : List (PyVal E))
deriving DecidableEq

/-- The per-text loop of `GeminiProvider.generate_embeddings` /
`AnthropicProvider.generate_embeddings`: one underlying request per text,
results accumulated in order; the first API exception aborts the loop and
is wrapped with the provider's message prefix, discarding embeddings
already computed for earlier texts. -/
def perItemLoop {E : Type} (api : PyVal E → Except String E) (prefixMsg : String) :
    List (PyVal E) → List (GenEvent E) × Except Err (List E)
  | [] => ([], .ok [])
  | t :: rest =>
      match api t with
      | .error e => ([.call [t]], .error (.provider (prefixMsg ++ e)))
      | .ok v =>
          match perItemLoop api prefixMsg rest with
          | (evs, .error e) => (.call [t] :: evs, .error e)
          | (evs, .ok vs) => (.call [t] :: evs, .ok (v :: vs))

/-- `GeminiProvider.generate_embeddings` (src/providers/gemini_provider.py,
lines 18-61): validate, lazily initialise the client, then one
`embed_content` request per text.  `api` is the abstract network oracle;
`clientReady` says whether `self._client` was already initialised. -/
def gemini_generate_embeddings {E : Type} (api : PyVal E → Except String E)
    (clientReady : Bool) (texts : List (PyVal E)) :
    List (GenEvent E) × Except Err (List E) :=
  match validate_texts texts with
  | .error e => ([], .error e)
  | .ok _ =>
      let initEvs : List (GenEvent E) := if clientReady then [] else [.clientInit]
      let r := perItemLoop api "Error generating embeddings with Gemini: " texts
      (initEvs ++ r.1, r.2)

/-- `AnthropicProvider.generate_embeddings`
(src/providers/anthropic_provider.py, lines 17-46): same shape as Gemini,
one `embeddings.create` request per text. -/
def anthropic_generate_embeddings {E : Type} (api : PyVal E → Except String E)
    (clientReady : Bool) (texts : List (PyVal E)) :
    List (GenEvent E) × Except Err (List E) :=
  match validate_texts texts with
  | .error e => ([], .error e)
  | .ok _ =>
      let initEvs : List (GenEvent E) := if clientReady then [] else [.clientInit]
      let r := perItemLoop api "Error generating embeddings with Anthropic: " texts
      (initEvs ++ r.1, r.2)

/-- `OpenAIProvider.generate_embeddings` (src/providers/openai_provider.py,
lines 17-42): validate, lazily initialise the client, then a single
`embeddings.create` request carrying the whole list. -/
def openai_generate_embeddings {E : Type}
    (api : List (PyVal E) → Except String (List E))
    (clientReady : Bool) (texts : List (PyVal E)) :
    List (GenEvent E) × Except Err (List E) :=
  match validate_texts texts with
  | .error e => ([], .error e)
  | .ok _ =>
      let initEvs : List (GenEvent E) := if clientReady then [] else [.clientInit]
      match api texts with
      | .error e =>
          (initEvs ++ [.call texts],
           .error (.provider ("Error generating embeddings with OpenAI: " ++ e)))
      | .ok vs => (initEvs ++ [.call texts], .ok vs)

/-- Whether `pat` occurs as a substring of `s` starting at some position of
the given suffix (Python `pat in s`). -/
def subOccurs (pat : List Char) : List Char → Bool
  | [] => pat.isEmpty
  | c :: rest => pat.isPrefixOf (c :: rest) || subOccurs pat rest

/-- Python `pat in s` on strings. -/
def hasSubstr (s pat : String) : Bool :=
  subOccurs pat.toList s.toList

/-- The dict a provider's `get_model_info` returns.  `Option` fields model
keys that some providers omit: Python `d.get(k)` yields `None` for a
missing key, and the dispatcher tests the value for truthiness. -/
structure ModelInfo where
  provider : String
  model : String
  dimensions : Nat
  batch_limit : Option Nat
  supports_batch : Option Bool
deriving DecidableEq

/-- `GeminiProvider.get_model_info` (src/providers/gemini_provider.py,
lines 63-84). -/
def gemini_get_model_info (model : String) : ModelInfo :=
  let mi : ModelInfo :=
    { provider := "Google Gemini", model := model, dimensions := 768,
      batch_limit := some 1, supports_batch := some false }
  if hasSubstr model "text-embedding-004" then { mi with dimensions := 768 }
  else if hasSubstr model "embedding-001" then { mi with dimensions := 768 }
  else mi

/-- `OpenAIProvider.get_model_info` (src/providers/openai_provider.py,
lines 44-65): no `batch_limit` or `supports_batch` key is set. -/
def openai_get_model_info (model : String) : ModelInfo :=
  let mi : ModelInfo :=
    { provider := "OpenAI", model := model, dimensions := 1536,
      batch_limit := none, supports_batch := none }
  if hasSubstr model "text-embedding-3-large" then { mi with dimensions := 3072 }
  else if hasSubstr model "text-embedding-3-small" then { mi with dimensions := 1536 }
  else if hasSubstr model "text-embedding-ada-002" then { mi with dimensions := 1536 }
  else mi

/-- `AnthropicProvider.get_model_info` (src/providers/anthropic_provider.py,
lines 48-67): no `batch_limit` or `supports_batch` key is set. -/
def anthropic_get_model_info (model : String) : ModelInfo :=
  let mi : ModelInfo :=
    { provider := "Anthropic", model := model, dimensions := 1536,
      batch_limit := none, supports_batch := none }
  if hasSubstr model "text-embedding-3-large" then { mi with dimensions := 3072 }
  else if hasSubstr model "text-embedding-3-small" then { mi with dimensions := 1536 }
  else mi

/-- The truthiness test the dispatcher applies:
`model_info.get('supports_batch')` is truthy exactly when the key is
present and holds `True`. -/
def supportsBatchTruthy (mi : ModelInfo) : Bool :=
  mi.supports_batch.getD false

/-- Python `str.lower()` (ASCII case folding, which is all the code relies
on). -/
def strLower (s : String) : String := String.mk (s.toList.map Char.toLower)

/-- Python `str.upper()`. -/
def strUpper (s : String) : String := String.mk (s.toList.map Char.toUpper)

/-- The three provider classes registered in
`ProviderFactory._providers` (src/providers/provider_factory.py). -/
inductive PClass where
  | openai
  | gemini
  | anthropic
deriving DecidableEq

/-- `provider_class.__name__`. -/
def pclassName : PClass → String
  | .openai => "OpenAIProvider"
  | .gemini => "GeminiProvider"
  | .anthropic => "AnthropicProvider"

/-- `provider_class.__module__`. -/
def pclassModule : PClass → String
  | .openai => "providers.openai_provider"
  | .gemini => "providers.gemini_provider"
  | .anthropic => "providers.anthropic_provider"

/-- `provider_class.__doc__` (each class's docstring). -/
def pclassDoc : PClass → String
  | .openai => "OpenAI provider for embeddings."
  | .gemini => "Google Gemini provider for embeddings."
  | .anthropic => "Anthropic provider for embeddings."

/-- The static registry `ProviderFactory._providers`, in source order. -/
def providersTable : List (String × PClass) :=
  [("openai", .openai), ("gemini", .gemini), ("anthropic", .anthropic)]

/-- A single-quote character (U+0027), used inside error messages. -/
def squote : String := String.singleton (Char.ofNat 39)

/-- The result of `provider_class(api_key=..., model=...)`: a constructed
provider instance, recorded by class and constructor arguments. -/
structure BuiltProvider where
  pclass : PClass
  api_key : String
  model : String
deriving DecidableEq

/-- The two `ValueError` raise sites of `ProviderFactory.create_provider`,
distinguished as the spec's `UnsupportedProviderError` and
`ConfigurationError`. -/
inductive FactoryErr where
  | unsupported (msg : String)
  | configuration (msg : String)
deriving DecidableEq

/-- `ProviderFactory.create_provider` (src/providers/provider_factory.py,
lines 21-54).  `config` is the configuration dict as a total lookup
(`config.get(key)`); a missing key and a key bound to `None` both read as
`none`.  Python `if not api_key` is falsy both for `None` and for the
empty string. -/
def create_provider (provider_name : String) (config : String → Option String) :
    Except FactoryErr BuiltProvider :=
  let name := strLower provider_name
  match providersTable.lookup name with
  | none =>
      .error (.unsupported
        ("Provider " ++ squote ++ name ++ squote ++ " not supported. Supported providers: "
          ++ String.intercalate ", " (providersTable.map (fun p => p.1))))
  | some pc =>
      match config (strUpper name ++ "_API_KEY") with
      | some k =>
          if k = "" then
            .error (.configuration ("API key for " ++ name ++ " not found in configuration"))
          else
            match config (strUpper name ++ "_EMBEDDING_MODEL") with
            | some m =>
                if m = "" then
                  .error (.configuration ("Model for " ++ name ++ " not found in configuration"))
                else
                  .ok { pclass := pc, api_key := k, model := m }
            | none =>
                .error (.configuration ("Model for " ++ name ++ " not found in configuration"))
      | none =>
          .error (.configuration ("API key for " ++ name ++ " not found in configuration"))

/-- `ProviderFactory.get_supported_providers`. -/
def get_supported_providers : List String :=
  providersTable.map (fun p => p.1)

/-- `ProviderFactory.get_provider_info` (src/providers/provider_factory.py,
lines 66-89); the returned dict is an association list. -/
def get_provider_info (provider_name : String) : List (String × String) :=
  let name := strLower provider_name
  match providersTable.lookup name with
  | none => [("error", "Provider " ++ squote ++ name ++ squote ++ " not supported")]
  | some pc =>
      [("name", name),
       ("class", pclassName pc),
       ("module", pclassModule pc),
       ("description",
        if pclassDoc pc = "" then "No description available" else pclassDoc pc)]

/-- The provider object as `process_embeddings` sees it: its
`get_model_info()` result and its `generate_embeddings` method.  `gen`
abstracts over the provider's internal behaviour; a `.error` value is a
raised exception. -/
structure ProviderObj (E : Type) where
  model_info : ModelInfo
  gen : List (PyVal E) → Except Err (List E)

/-- `[item['content'] for item in batch]`: Python raises `KeyError` on a
record missing the field. -/
def extractTexts {E : Type} : List (Record E) → Except Err (List (PyVal E))
  | [] => .ok []
  | item :: rest =>
      match dictGet item "content" with
      | none => .error (.keyError "content")
      | some v =>
          match extractTexts rest with
          | .error e => .error e
          | .ok vs => .ok (v :: vs)

/-- `zip(batch, embeddings)` followed by `item.copy();
item_with_embedding['embedding'] = embedding` for each pair
(src/json_to_embeddings.py, lines 86-89 and 108-111); `zip` truncates to
the shorter list. -/
def zipAddEmbedding {E : Type} (batch : List (Record E)) (embs : List E) :
    List (Record E) :=
  List.zipWith (fun item e => dictSet item "embedding" (.emb e)) batch embs

/-- The consecutive slices `data[i:i+bs]` produced by
`range(0, len(data), bs)`; `bs = 0` is unreachable at the call site (the
Python `range` would raise) and is mapped to no chunks. -/
def chunksOfAux {A : Type} (bs : Nat) : Nat → List A → List (List A)
  | 0, _ => []
  | fuel + 1, l =>
      if l.isEmpty ∨ bs = 0 then []
      else l.take bs :: chunksOfAux bs fuel (l.drop bs)

def chunksOf {A : Type} (bs : Nat) (l : List A) : List (List A) :=
  chunksOfAux bs l.length l

theorem chunksOfAux_congr {A : Type} (bs : Nat) :
    ∀ f1 f2 (l : List A), l.length ≤ f1 → l.length ≤ f2 →
      chunksOfAux bs f1 l = chunksOfAux bs f2 l := by
  intro f1
  induction f1 with
  | zero =>
      intro f2 l h1 h2
      have hnil : l = [] := List.eq_nil_of_length_eq_zero (Nat.le_zero.mp h1)
      subst hnil
      cases f2 with
      | zero => rfl
      | succ f2 => simp [chunksOfAux]
  | succ f1 ih =>
      intro f2 l h1 h2
      cases f2 with
      | zero =>
          have hnil : l = [] := List.eq_nil_of_length_eq_zero (Nat.le_zero.mp h2)
          subst hnil
          simp [chunksOfAux]
      | succ f2 =>
          by_cases hc : l.isEmpty ∨ bs = 0
          · simp only [chunksOfAux, if_pos hc]
          · simp only [chunksOfAux, if_neg hc]
            simp only [not_or, List.isEmpty_iff] at hc
            have hld : (l.drop bs).length ≤ f1 := by
              simp only [List.length_drop]
              have : l.length ≠ 0 := fun hz => hc.1 (List.eq_nil_of_length_eq_zero hz)
              have : bs ≠ 0 := hc.2
              omega
            have hld2 : (l.drop bs).length ≤ f2 := by
              simp only [List.length_drop]
              have : l.length ≠ 0 := fun hz => hc.1 (List.eq_nil_of_length_eq_zero hz)
              have : bs ≠ 0 := hc.2
              omega
            rw [ih f2 (l.drop bs) hld hld2]

/-- The body of the batch loop of `process_embeddings`
(src/json_to_embeddings.py, lines 98-113), one iteration per chunk:
extract the chunk's contents, call `generate_embeddings`, zip the results
onto the chunk's records and append them to the accumulated result.  The
first component is the trace of `generate_embeddings` calls issued (each
entry the argument texts); an exception anywhere discards the accumulated
result and propagates. -/
def runChunks {E : Type} (gen : List (PyVal E) → Except Err (List E)) :
    List (List (Record E)) → List (List (PyVal E)) × Except Err (List (Record E))
  | [] => ([], .ok [])
  | c :: cs =>
      match extractTexts c with
      | .error e => ([], .error e)
      | .ok texts =>
          match gen texts with
          | .error e => ([texts], .error e)
          | .ok embs =>
              match runChunks gen cs with
              | (tr, .error e) => (texts :: tr, .error e)
              | (tr, .ok rest) => (texts :: tr, .ok (zipAddEmbedding c embs ++ rest))

/-- `process_embeddings` (src/json_to_embeddings.py, lines 73-113).
Returns the trace of `generate_embeddings` calls issued (each entry the
texts passed to one call) together with the result or the propagated
exception.  Branch one runs when `model_info.get('supports_batch')` is
truthy and `batch_size == 0`; otherwise the batch loop runs with
`batch_size` defaulted to 100 when it is not positive. -/
def process_embeddings {E : Type} (provider : ProviderObj E)
    (data : List (Record E)) (batch_size : Int) :
    List (List (PyVal E)) × Except Err (List (Record E)) :=
  if supportsBatchTruthy provider.model_info && batch_size == 0 then
    match extractTexts data with
    | .error e => ([], .error e)
    | .ok texts =>
        match provider.gen texts with
        | .error e => ([texts], .error e)
        | .ok embs => ([texts], .ok (zipAddEmbedding data embs))
  else
    let bs : Nat := if batch_size ≤ 0 then 100 else batch_size.toNat
    runChunks provider.gen (chunksOf bs data)

/-- A heap of Python dict objects; an address is an index into the arena.
Used to state the frame property of the copy-then-assign block. -/
abbrev Heap (E : Type) := List (Record E)

/-- The heap-level reading of the zip block of `process_embeddings`
(src/json_to_embeddings.py, lines 86-89 and 108-111): for each
`(item, embedding)` pair, `item.copy()` allocates a fresh dict at the end
of the arena, `['embedding'] = embedding` mutates only that fresh dict,
and the fresh address is appended to the result. -/
def addEmbeddingsToHeap {E : Type} (heap : Heap E) :
    List Nat → List E → Heap E × List Nat
  | [], _ => (heap, [])
  | _ :: _, [] => (heap, [])
  | a :: as, e :: es =>
      let copied := dictSet (heap.getD a []) "embedding" (.emb e)
      let addr := heap.length
      match addEmbeddingsToHeap (heap ++ [copied]) as es with
      | (h, outs) => (h, addr :: outs)

/-- `item['content']` totalised for use in theorem statements; the theorems
only apply it to records on which the lookup succeeds. -/
def contentD {E : Type} (r : Record E) : PyVal E :=
  (dictGet r "content").getD .pynone

theorem dictGet_dictSet_self {V : Type} (d : List (String × V)) (k : String) (v : V) :
    dictGet (dictSet d k v) k = some v := by
  induction d with
  | nil => simp [dictGet, dictSet]
  | cons p rest ih =>
      obtain ⟨k1, v1⟩ := p
      by_cases h : k1 = k
      · simp [dictSet, dictGet, h]
      · simp [dictSet, dictGet, h, ih]

theorem dictGet_dictSet_of_ne {V : Type} (d : List (String × V)) (k k2 : String)
    (v : V) (h : k2 ≠ k) : dictGet (dictSet d k v) k2 = dictGet d k2 := by
  induction d with
  | nil => simp [dictGet, dictSet, Ne.symm h]
  | cons p rest ih =>
      obtain ⟨k1, v1⟩ := p
      by_cases h1 : k1 = k
      · subst h1
        simp [dictSet, dictGet, Ne.symm h]
      · simp only [dictSet, if_neg h1]
        by_cases h2 : k1 = k2
        · simp [dictGet, h2]
        · simp [dictGet, h2, ih]

theorem validate_texts_cons {E : Type} (t : PyVal E) (rest : List (PyVal E)) :
    validate_texts (t :: rest) = validateLoop 0 (t :: rest) := by
  simp [validate_texts]

theorem validateLoop_ok_iff {E : Type} (i : Nat) (ts : List (PyVal E)) :
    validateLoop i ts = .ok () ↔ ∀ t ∈ ts, goodText t = true := by
  induction ts generalizing i with
  | nil => simp [validateLoop]
  | cons t rest ih =>
      by_cases hs : isStr t
      · by_cases hg : goodText t
        · simp [validateLoop, hs, hg, ih (i + 1)]
        · simp [validateLoop, hs, hg]
      · have hg : goodText t = false := by
          cases t <;> simp_all [isStr, goodText]
        simp [validateLoop, hs, hg]

theorem validateLoop_cases {E : Type} (i : Nat) (ts : List (PyVal E)) :
    validateLoop i ts = .ok () ∨ ∃ m, validateLoop i ts = .error (.validation m) := by
  induction ts generalizing i with
  | nil => exact Or.inl rfl
  | cons t rest ih =>
      by_cases hs : isStr t
      · by_cases hg : goodText t
        · simpa [validateLoop, hs, hg] using ih (i + 1)
        · exact Or.inr ⟨"Text " ++ toString i ++ " cannot be empty",
            by simp [validateLoop, hs, hg]⟩
      · exact Or.inr ⟨"Text " ++ toString i ++ " must be a string",
          by simp [validateLoop, hs]⟩

theorem validate_texts_ok_iff {E : Type} (ts : List (PyVal E)) :
    validate_texts ts = .ok () ↔ ¬ badTexts ts := by
  cases ts with
  | nil => simp [validate_texts, badTexts]
  | cons t rest =>
      rw [validate_texts_cons, validateLoop_ok_iff]
      simp [badTexts]

theorem validate_texts_error_iff {E : Type} (ts : List (PyVal E)) :
    (∃ m, validate_texts ts = .error (.validation m)) ↔ badTexts ts := by
  constructor
  · intro ⟨m, hm⟩
    by_contra hb
    rw [← validate_texts_ok_iff] at hb
    rw [hb] at hm
    exact Except.noConfusion hm
  · intro hb
    cases ts with
    | nil => exact ⟨"Text list cannot be empty", rfl⟩
    | cons t rest =>
        rcases validateLoop_cases 0 (t :: rest) with hok | ⟨m, hm⟩
        · rw [validateLoop_ok_iff] at hok
          have hnb : ¬ badTexts (t :: rest) := by
            simp [badTexts]
            exact ⟨hok t (List.mem_cons_self t rest),
              fun x hx => hok x (List.mem_cons_of_mem t hx)⟩
          exact absurd hb hnb
        · exact ⟨m, by rw [validate_texts_cons, hm]⟩

theorem perItemLoop_result_cases {E : Type} (api : PyVal E → Except String E)
    (p : String) (ts : List (PyVal E)) :
    (∃ vs, (perItemLoop api p ts).2 = .ok vs) ∨
      ∃ m, (perItemLoop api p ts).2 = .error (.provider m) := by
  induction ts with
  | nil => exact Or.inl ⟨[], rfl⟩
  | cons t rest ih =>
      cases hapi : api t with
      | error e => exact Or.inr ⟨p ++ e, by simp [perItemLoop, hapi]⟩
      | ok v =>
          rcases ih with ⟨vs, hvs⟩ | ⟨m, hm⟩
          · refine Or.inl ⟨v :: vs, ?_⟩
            rcases hr : perItemLoop api p rest with ⟨evs, r2⟩
            rw [hr] at hvs
            simp at hvs
            simp [perItemLoop, hapi, hr, hvs]
          · refine Or.inr ⟨m, ?_⟩
            rcases hr : perItemLoop api p rest with ⟨evs, r2⟩
            rw [hr] at hm
            simp at hm
            simp [perItemLoop, hapi, hr, hm]

theorem perItemLoop_error_of_apiFail {E : Type} (api : PyVal E → Except String E)
    (p : String) (ts : List (PyVal E)) (t : PyVal E) (e : String)
    (hmem : t ∈ ts) (hfail : api t = .error e) :
    ∃ m, (perItemLoop api p ts).2 = .error (.provider m) := by
  induction ts with
  | nil => cases hmem
  | cons t0 rest ih =>
      cases hapi : api t0 with
      | error e0 => exact ⟨p ++ e0, by simp [perItemLoop, hapi]⟩
      | ok v =>
          have ht : t ∈ rest := by
            rcases List.mem_cons.mp hmem with h0 | h0
            · subst h0
              rw [hapi] at hfail
              exact Except.noConfusion hfail
            · exact h0
          rcases ih ht with ⟨m, hm⟩
          refine ⟨m, ?_⟩
          rcases hr : perItemLoop api p rest with ⟨evs, r2⟩
          rw [hr] at hm
          simp at hm
          simp [perItemLoop, hapi, hr, hm]

theorem perItemLoop_ok_api {E : Type} (api : PyVal E → Except String E)
    (p : String) (ts : List (PyVal E)) (vs : List E)
    (hok : (perItemLoop api p ts).2 = .ok vs) :
    ∀ t ∈ ts, ∃ v, api t = .ok v := by
  induction ts generalizing vs with
  | nil => intro t ht; cases ht
  | cons t0 rest ih =>
      cases hapi : api t0 with
      | error e0 => simp [perItemLoop, hapi] at hok
      | ok v =>
          intro t ht
          rcases List.mem_cons.mp ht with h0 | h0
          · exact ⟨v, h0 ▸ hapi⟩
          · rcases hr : perItemLoop api p rest with ⟨evs, r2⟩
            cases r2 with
            | error e => simp [perItemLoop, hapi, hr] at hok
            | ok ws =>
                exact ih ws (by rw [hr]) t h0

theorem extractTexts_ok {E : Type} (data : List (Record E))
    (h : ∀ r ∈ data, (dictGet r "content").isSome) :
    extractTexts data = .ok (data.map contentD) := by
  induction data with
  | nil => rfl
  | cons r rest ih =>
      have hr := h r (List.mem_cons_self r rest)
      rcases hc : dictGet r "content" with _ | v
      · rw [hc] at hr; cases hr
      · have hrest := ih fun x hx => h x (List.mem_cons_of_mem r hx)
        simp [extractTexts, hc, hrest, contentD]

theorem zipAddEmbedding_map {E : Type} (g : PyVal E → E) (c : List (Record E)) :
    zipAddEmbedding c ((c.map contentD).map g)
      = c.map (fun r => dictSet r "embedding" (.emb (g (contentD r)))) := by
  induction c with
  | nil => rfl
  | cons r rest ih => simp [zipAddEmbedding, List.zipWith] at ih ⊢; exact ih

theorem chunksOf_nil {A : Type} (bs : Nat) : chunksOf bs ([] : List A) = [] := rfl

theorem chunksOf_cons {A : Type} (bs : Nat) (l : List A) (hl : l ≠ [])
    (hbs : bs ≠ 0) : chunksOf bs l = l.take bs :: chunksOf bs (l.drop bs) := by
  unfold chunksOf
  cases hL : l.length with
  | zero => exact absurd (List.eq_nil_of_length_eq_zero hL) hl
  | succ n =>
      have hc : ¬(l.isEmpty ∨ bs = 0) := by
        simp only [not_or, List.isEmpty_iff]
        exact ⟨hl, hbs⟩
      simp only [chunksOfAux, if_neg hc]
      have hld : (l.drop bs).length ≤ n := by
        simp only [List.length_drop]
        omega
      rw [chunksOfAux_congr bs n (l.drop bs).length (l.drop bs) hld (le_refl _)]

theorem chunksOf_flatten {A : Type} (bs : Nat) (l : List A) (hbs : bs ≠ 0) :
    (chunksOf bs l).flatten = l := by
  suffices h : ∀ n (l : List A), l.length ≤ n → (chunksOf bs l).flatten = l from
    h l.length l (le_refl _)
  intro n
  induction n with
  | zero =>
      intro l hl
      have hnil : l = [] := List.eq_nil_of_length_eq_zero (Nat.le_zero.mp hl)
      subst hnil
      simp [chunksOf_nil]
  | succ n ih =>
      intro l hl
      cases l with
      | nil => simp [chunksOf_nil]
      | cons a rest =>
          rw [chunksOf_cons bs _ (by simp) hbs]
          have hle : (List.drop bs (a :: rest)).length ≤ n := by
            simp only [List.length_drop, List.length_cons]
            simp only [List.length_cons] at hl
            omega
          rw [List.flatten_cons, ih _ hle]
          exact List.take_append_drop bs (a :: rest)

theorem chunksOf_length {A : Type} (bs : Nat) (l : List A) (hbs : bs ≠ 0) :
    (chunksOf bs l).length = (l.length + bs - 1) / bs := by
  suffices h : ∀ n (l : List A), l.length ≤ n →
      (chunksOf bs l).length = (l.length + bs - 1) / bs from h l.length l (le_refl _)
  intro n
  induction n with
  | zero =>
      intro l hl
      have hnil : l = [] := List.eq_nil_of_length_eq_zero (Nat.le_zero.mp hl)
      subst hnil
      rw [chunksOf_nil]
      simp
      exact (Nat.div_eq_of_lt (by omega)).symm
  | succ n ih =>
      intro l hl
      cases l with
      | nil =>
          rw [chunksOf_nil]
          simp
          exact (Nat.div_eq_of_lt (by omega)).symm
      | cons a rest =>
          rw [chunksOf_cons bs _ (by simp) hbs]
          have hlen : (List.drop bs (a :: rest)).length = (a :: rest).length - bs := by
            simp [List.length_drop]
          have hle : (List.drop bs (a :: rest)).length ≤ n := by
            simp only [List.length_drop, List.length_cons]
            simp only [List.length_cons] at hl
            omega
          rw [List.length_cons, ih _ hle, hlen]
          have hL : 1 ≤ (a :: rest).length := by simp
          rcases Nat.lt_or_ge ((a :: rest).length) (bs + 1) with hsmall | hbig
          · have h1 : (a :: rest).length - bs = 0 := by omega
            rw [h1]
            have h2 : ((a :: rest).length + bs - 1) / bs = 1 := by
              apply Nat.div_eq_of_lt_le <;> omega
            rw [h2, Nat.zero_add, Nat.div_eq_of_lt (show bs - 1 < bs by omega)]
          · have h1 : (a :: rest).length - bs + bs - 1 = ((a :: rest).length - bs - 1) + bs := by
              omega
            have h2 : (a :: rest).length + bs - 1 = ((a :: rest).length - 1) + bs := by
              omega
            have h3 : (a :: rest).length - 1 = ((a :: rest).length - bs - 1) + bs := by
              omega
            rw [h1, h2, h3, Nat.add_div_right _ (Nat.pos_of_ne_zero hbs),
              Nat.add_div_right _ (Nat.pos_of_ne_zero hbs),
              Nat.add_div_right _ (Nat.pos_of_ne_zero hbs)]

theorem chunksOf_mem {A : Type} (bs : Nat) (l : List A) (hbs : bs ≠ 0)
    (c : List A) (hc : c ∈ chunksOf bs l) : c ≠ [] ∧ c.length ≤ bs := by
  suffices h : ∀ n (l : List A), l.length ≤ n → ∀ c ∈ chunksOf bs l,
      c ≠ [] ∧ c.length ≤ bs from h l.length l (le_refl _) c hc
  intro n
  induction n with
  | zero =>
      intro l hl c hc
      have hnil : l = [] := List.eq_nil_of_length_eq_zero (Nat.le_zero.mp hl)
      subst hnil
      rw [chunksOf_nil] at hc
      cases hc
  | succ n ih =>
      intro l hl c hc
      cases l with
      | nil => rw [chunksOf_nil] at hc; cases hc
      | cons a rest =>
          rw [chunksOf_cons bs _ (by simp) hbs] at hc
          rcases List.mem_cons.mp hc with h0 | h0
          · subst h0
            refine ⟨?_, by simp [List.length_take]⟩
            simp [List.take_eq_nil_iff]
            omega
          · have hle : (List.drop bs (a :: rest)).length ≤ n := by
              simp only [List.length_drop, List.length_cons]
              simp only [List.length_cons] at hl
              omega
            exact ih _ hle c h0

theorem chunksOf_getD_length {A : Type} (bs : Nat) (l : List A) (hbs : bs ≠ 0)
    (i : Nat) (hi : i + 1 < (chunksOf bs l).length) :
    ((chunksOf bs l).getD i []).length = bs := by
  suffices h : ∀ n (l : List A), l.length ≤ n → ∀ i, i + 1 < (chunksOf bs l).length →
      ((chunksOf bs l).getD i []).length = bs from h l.length l (le_refl _) i hi
  intro n
  induction n with
  | zero =>
      intro l hl i hi
      have hnil : l = [] := List.eq_nil_of_length_eq_zero (Nat.le_zero.mp hl)
      subst hnil
      rw [chunksOf_nil] at hi
      simp at hi
  | succ n ih =>
      intro l hl i hi
      cases l with
      | nil =>
          rw [chunksOf_nil] at hi
          simp at hi
      | cons a rest =>
          have hcons := chunksOf_cons bs (a :: rest) (by simp) hbs
          have hle : (List.drop bs (a :: rest)).length ≤ n := by
            simp only [List.length_drop, List.length_cons]
            simp only [List.length_cons] at hl
            omega
          rw [hcons] at hi ⊢
          cases i with
          | zero =>
              have hrest : chunksOf bs (List.drop bs (a :: rest)) ≠ [] := by
                intro hemp
                rw [hemp] at hi
                simp at hi
              have hdrop : List.drop bs (a :: rest) ≠ [] := by
                intro hemp
                rw [hemp, chunksOf_nil] at hrest
                exact hrest rfl
              have hlong : bs < (a :: rest).length := by
                by_contra hcontra
                push_neg at hcontra
                rw [List.drop_eq_nil_iff.mpr hcontra] at hdrop
                exact hdrop rfl
              simp only [List.getD_cons_zero, List.length_take]
              omega
          | succ j =>
              simp only [List.getD_cons_succ]
              apply ih _ hle
              simpa using hi

theorem runChunks_pointwise {E : Type} (gen : List (PyVal E) → Except Err (List E))
    (g : PyVal E → E) (hg : ∀ ts, gen ts = .ok (ts.map g))
    (cs : List (List (Record E)))
    (hc : ∀ r ∈ cs.flatten, (dictGet r "content").isSome) :
    runChunks gen cs =
      (cs.map (fun c => c.map contentD),
       .ok (cs.flatten.map (fun r => dictSet r "embedding" (.emb (g (contentD r)))))) := by
  induction cs with
  | nil => rfl
  | cons c cs ih =>
      have hcc : ∀ r ∈ c, (dictGet r "content").isSome := fun r hr =>
        hc r (by simp [List.mem_flatten]; exact Or.inl hr)
      have hcs : ∀ r ∈ cs.flatten, (dictGet r "content").isSome := fun r hr =>
        hc r (by simp [List.mem_flatten] at hr ⊢; exact Or.inr hr)
      have hext := extractTexts_ok c hcc
      have hzip := zipAddEmbedding_map g c
      simp only [runChunks, hext, hg (c.map contentD), ih hcs, hzip]
      simp [List.flatten_cons]

theorem runChunks_fail {E : Type} (gen : List (PyVal E) → Except Err (List E))
    (cs : List (List (Record E))) (ts : List (PyVal E)) (m : Err)
    (hmem : ts ∈ (runChunks gen cs).1) (hfail : gen ts = .error m) :
    ∃ m2, (runChunks gen cs).2 = .error m2 := by
  induction cs with
  | nil => cases hmem
  | cons c cs ih =>
      cases hext : extractTexts c with
      | error e =>
          rw [show runChunks gen (c :: cs) = ([], .error e) from by
            simp [runChunks, hext]] at hmem
          cases hmem
      | ok texts =>
          cases hgen : gen texts with
          | error e =>
              exact ⟨e, by simp [runChunks, hext, hgen]⟩
          | ok embs =>
              rcases hrc : runChunks gen cs with ⟨tr, res⟩
              cases res with
              | error e =>
                  exact ⟨e, by simp [runChunks, hext, hgen, hrc]⟩
              | ok rest =>
                  have hmem2 : ts ∈ texts :: tr := by
                    rw [show (runChunks gen (c :: cs)).1 = texts :: tr from by
                      simp [runChunks, hext, hgen, hrc]] at hmem
                    exact hmem
                  rcases List.mem_cons.mp hmem2 with h0 | h0
                  · subst h0
                    rw [hgen] at hfail
                    exact Except.noConfusion hfail
                  · rcases ih (by rw [hrc]; exact h0) with ⟨m2, hm2⟩
                    rw [hrc] at hm2
                    simp at hm2

/-- The effective batch size of the chunked branch:
`if batch_size <= 0: batch_size = 100`. -/
def effectiveBatch (batch_size : Int) : Nat :=
  if batch_size ≤ 0 then 100 else batch_size.toNat

theorem effectiveBatch_ne_zero (batch_size : Int) : effectiveBatch batch_size ≠ 0 := by
  unfold effectiveBatch
  split
  · omega
  · rename_i h
    omega

theorem process_embeddings_chunked {E : Type} (p : ProviderObj E)
    (data : List (Record E)) (batch_size : Int)
    (hcond : ¬(supportsBatchTruthy p.model_info = true ∧ batch_size = 0)) :
    process_embeddings p data batch_size =
      runChunks p.gen (chunksOf (effectiveBatch batch_size) data) := by
  have hb : (supportsBatchTruthy p.model_info && batch_size == 0) = false := by
    by_cases ht : supportsBatchTruthy p.model_info = true
    · have hz : ¬ batch_size = 0 := fun hz => hcond ⟨ht, hz⟩
      simp [ht, hz]
    · simp only [Bool.not_eq_true] at ht
      simp [ht]
  simp [process_embeddings, hb, effectiveBatch]

theorem process_embeddings_batchall {E : Type} (p : ProviderObj E)
    (data : List (Record E)) (batch_size : Int)
    (hcond : supportsBatchTruthy p.model_info = true ∧ batch_size = 0)
    (texts : List (PyVal E)) (hext : extractTexts data = .ok texts) :
    process_embeddings p data batch_size =
      match p.gen texts with
      | .error e => ([texts], .error e)
      | .ok embs => ([texts], .ok (zipAddEmbedding data embs)) := by
  obtain ⟨hs, hz⟩ := hcond
  subst hz
  simp [process_embeddings, hs, hext]

theorem process_embeddings_pointwise {E : Type} (p : ProviderObj E)
    (g : PyVal E → E) (hg : ∀ ts, p.gen ts = .ok (ts.map g))
    (data : List (Record E))
    (hc : ∀ r ∈ data, (dictGet r "content").isSome) (batch_size : Int) :
    (process_embeddings p data batch_size).2 =
      .ok (data.map (fun r => dictSet r "embedding" (.emb (g (contentD r))))) := by
  by_cases hcond : supportsBatchTruthy p.model_info = true ∧ batch_size = 0
  · rw [process_embeddings_batchall p data batch_size hcond (data.map contentD)
      (extractTexts_ok data hc)]
    rw [hg (data.map contentD)]
    exact congrArg Except.ok (zipAddEmbedding_map g data)
  · rw [process_embeddings_chunked p data batch_size hcond]
    have heff := effectiveBatch_ne_zero batch_size
    have hflat := chunksOf_flatten (effectiveBatch batch_size) data heff
    have hc2 : ∀ r ∈ (chunksOf (effectiveBatch batch_size) data).flatten,
        (dictGet r "content").isSome := by
      rw [hflat]
      exact hc
    rw [runChunks_pointwise p.gen g hg _ hc2]
    rw [hflat]

theorem process_embeddings_trace_pointwise {E : Type} (p : ProviderObj E)
    (g : PyVal E → E) (hg : ∀ ts, p.gen ts = .ok (ts.map g))
    (data : List (Record E))
    (hc : ∀ r ∈ data, (dictGet r "content").isSome) (batch_size : Int)
    (hcond : ¬(supportsBatchTruthy p.model_info = true ∧ batch_size = 0)) :
    (process_embeddings p data batch_size).1 =
      (chunksOf (effectiveBatch batch_size) data).map (fun c => c.map contentD) := by
  rw [process_embeddings_chunked p data batch_size hcond]
  have heff := effectiveBatch_ne_zero batch_size
  have hc2 : ∀ r ∈ (chunksOf (effectiveBatch batch_size) data).flatten,
      (dictGet r "content").isSome := by
    rw [chunksOf_flatten _ data heff]
    exact hc
  rw [runChunks_pointwise p.gen g hg _ hc2]

theorem getD_append_left {A : Type} (l l2 : List A) (d : A) (a : Nat)
    (h : a < l.length) : (l ++ l2).getD a d = l.getD a d := by
  induction l generalizing a with
  | nil => simp at h
  | cons x rest ih =>
      cases a with
      | zero => simp
      | succ b =>
          simp only [List.cons_append, List.getD_cons_succ]
          exact ih b (by simp at h; omega)

theorem getD_concat_self {A : Type} (l : List A) (x d : A) :
    (l ++ [x]).getD l.length d = x := by
  induction l with
  | nil => simp
  | cons y rest ih => simpa using ih

theorem addEmbeddingsToHeap_growth {E : Type} (addrs : List Nat) (embs : List E)
    (heap : Heap E) :
    ∃ tail, (addEmbeddingsToHeap heap addrs embs).1 = heap ++ tail := by
  induction addrs generalizing heap embs with
  | nil => exact ⟨[], by simp [addEmbeddingsToHeap]⟩
  | cons a as ih =>
      cases embs with
      | nil => exact ⟨[], by simp [addEmbeddingsToHeap]⟩
      | cons e es =>
          rcases ih es (heap ++ [dictSet (heap.getD a []) "embedding" (.emb e)])
            with ⟨tail, htail⟩
          refine ⟨dictSet (heap.getD a []) "embedding" (.emb e) :: tail, ?_⟩
          rcases hrec : addEmbeddingsToHeap
              (heap ++ [dictSet (heap.getD a []) "embedding" (.emb e)]) as es
            with ⟨h2, outs⟩
          rw [hrec] at htail
          simp only [addEmbeddingsToHeap, hrec]
          simp at htail
          simp [htail]

theorem addEmbeddingsToHeap_frame {E : Type} (addrs : List Nat) (embs : List E)
    (heap : Heap E) (a : Nat) (ha : a < heap.length) :
    (addEmbeddingsToHeap heap addrs embs).1.getD a [] = heap.getD a [] := by
  rcases addEmbeddingsToHeap_growth addrs embs heap with ⟨tail, htail⟩
  rw [htail]
  exact getD_append_left heap tail [] a ha

theorem getD_append_length {A : Type} (l l2 : List A) (d : A) :
    (l ++ l2).getD l.length d = l2.getD 0 d := by
  induction l with
  | nil => simp
  | cons y rest ih => simpa using ih

theorem addEmbeddingsToHeap_outs {E : Type} (addrs : List Nat) (embs : List E)
    (heap : Heap E) (hv : ∀ a ∈ addrs, a < heap.length) :
    ((addEmbeddingsToHeap heap addrs embs).2).map
        (fun a => (addEmbeddingsToHeap heap addrs embs).1.getD a [])
      = zipAddEmbedding (addrs.map (fun a => heap.getD a [])) embs := by
  induction addrs generalizing heap embs with
  | nil => simp [addEmbeddingsToHeap, zipAddEmbedding]
  | cons a as ih =>
      cases embs with
      | nil => simp [addEmbeddingsToHeap, zipAddEmbedding]
      | cons e es =>
          have ha : a < heap.length := hv a (List.mem_cons_self a as)
          have hv1 : ∀ b ∈ as,
              b < (heap ++ [dictSet (heap.getD a []) "embedding" (.emb e)]).length := by
            intro b hb
            have := hv b (List.mem_cons_of_mem a hb)
            simp
            omega
          rcases hrec : addEmbeddingsToHeap
              (heap ++ [dictSet (heap.getD a []) "embedding" (.emb e)]) as es
            with ⟨h2, outs⟩
          have hstep : addEmbeddingsToHeap heap (a :: as) (e :: es)
              = (h2, heap.length :: outs) := by
            simp only [addEmbeddingsToHeap, hrec]
          have hih := ih es _ hv1
          rw [hrec] at hih
          simp only at hih
          have hhead : h2.getD heap.length []
              = dictSet (heap.getD a []) "embedding" (.emb e) := by
            rcases addEmbeddingsToHeap_growth as es
                (heap ++ [dictSet (heap.getD a []) "embedding" (.emb e)])
              with ⟨tail, htail⟩
            rw [hrec] at htail
            simp only at htail
            rw [htail,
              getD_append_left _ tail [] heap.length (by simp),
              getD_concat_self]
          have hmap : as.map
                (fun b => (heap ++ [dictSet (heap.getD a []) "embedding" (.emb e)]).getD b [])
              = as.map (fun b => heap.getD b []) := by
            apply List.map_congr_left
            intro b hb
            exact getD_append_left heap _ [] b (hv b (List.mem_cons_of_mem a hb))
          rw [hstep]
          simp only [List.map_cons, hhead]
          rw [hih, hmap]
          simp [zipAddEmbedding]

/-- Claim C4: the claim states that the large-batch backend (Gemini, the
default `AI_PROVIDER`) reports `supportsUnlimitedBatch = true` from
`getModelInfo`.  The code contradicts this: `GeminiProvider.get_model_info`
returns `supports_batch = False` for every model name, and the OpenAI and
Anthropic providers omit the key entirely, so no provider ever reports
unlimited-batch support and the single-call branch of `process_embeddings`
is unreachable. -/
theorem claim_C4_no_provider_supports_batch (m : String) :
    (gemini_get_model_info m).supports_batch = some false
    ∧ (openai_get_model_info m).supports_batch = none
    ∧ (anthropic_get_model_info m).supports_batch = none := by
  unfold gemini_get_model_info openai_get_model_info anthropic_get_model_info
  refine ⟨?_, ?_, ?_⟩ <;> (repeat' split) <;> rfl

/-- Claim C8 (amended): whenever the chunked branch of `process_embeddings`
runs — the provider does not report truthy batch support, or the requested
batch size is nonzero — the empty record list yields the empty result with
no `generate_embeddings` call.  (In the single-call branch the code instead
issues one call with the empty text list; see the counterexample.) -/
theorem claim_C8_empty_input {E : Type} (p : ProviderObj E) (batch_size : Int)
    (h : ¬(supportsBatchTruthy p.model_info = true ∧ batch_size = 0)) :
    process_embeddings p ([] : List (Record E)) batch_size = ([], .ok []) := by
  rw [process_embeddings_chunked p [] batch_size h, chunksOf_nil]
  rfl

theorem claim_C8_empty_input_witness :
    process_embeddings
        ⟨gemini_get_model_info "embedding-001",
         fun ts => (gemini_generate_embeddings (fun _ => .ok (0 : Nat)) true ts).2⟩
        ([] : List (Record Nat)) 0 = ([], .ok []) :=
  claim_C8_empty_input _ 0 (by decide)

/-- Claim C8 (counterexample to the original statement): for a provider
whose model info reports truthy batch support and batch size 0, the
single-call branch of `process_embeddings` issues one
`generate_embeddings` call carrying the empty text list on empty input
(the trace is `[[]]`, not `[]`), and with the Gemini provider behaviour
that call fails validation instead of returning the empty list. -/
theorem claim_C8_counterexample :
    (process_embeddings
        ⟨⟨"Google Gemini", "embedding-001", 768, some 1, some true⟩,
         fun ts => (gemini_generate_embeddings (fun _ => .ok (0 : Nat)) true ts).2⟩
        ([] : List (Record Nat)) 0).1 = [[]]
    ∧ (process_embeddings
        ⟨⟨"Google Gemini", "embedding-001", 768, some 1, some true⟩,
         fun ts => (gemini_generate_embeddings (fun _ => .ok (0 : Nat)) true ts).2⟩
        ([] : List (Record Nat)) 0).2
      = .error (.validation "Text list cannot be empty") := by
  constructor <;> rfl

/-- Claim C9: the copy-then-assign block of `process_embeddings` never
mutates the input records.  At the heap level: the final heap extends the
initial one, every pre-existing object (in particular every input record,
and its `embedding` field, present or absent) is unchanged, and the output
addresses hold exactly the copies with `embedding` set — the functional
`zipAddEmbedding` of the input records. -/
theorem claim_C9_no_mutation {E : Type} (heap : Heap E) (addrs : List Nat)
    (embs : List E) (hv : ∀ a ∈ addrs, a < heap.length) :
    (∃ tail, (addEmbeddingsToHeap heap addrs embs).1 = heap ++ tail)
    ∧ (∀ a, a < heap.length →
        (addEmbeddingsToHeap heap addrs embs).1.getD a [] = heap.getD a [])
    ∧ (∀ a, a < heap.length →
        dictGet ((addEmbeddingsToHeap heap addrs embs).1.getD a []) "embedding"
          = dictGet (heap.getD a []) "embedding")
    ∧ ((addEmbeddingsToHeap heap addrs embs).2).map
          (fun a => (addEmbeddingsToHeap heap addrs embs).1.getD a [])
        = zipAddEmbedding (addrs.map (fun a => heap.getD a [])) embs := by
  refine ⟨addEmbeddingsToHeap_growth addrs embs heap, ?_, ?_, ?_⟩
  · intro a ha
    exact addEmbeddingsToHeap_frame addrs embs heap a ha
  · intro a ha
    rw [addEmbeddingsToHeap_frame addrs embs heap a ha]
  · exact addEmbeddingsToHeap_outs addrs embs heap hv

theorem claim_C9_no_mutation_witness :
    (∃ tail, (addEmbeddingsToHeap
        ([[("content", .str "a"), ("origin", .str "x")]] : Heap Nat)
        [0] [5]).1 = [[("content", .str "a"), ("origin", .str "x")]] ++ tail)
    ∧ (∀ a, a < ([[("content", .str "a"), ("origin", .str "x")]] : Heap Nat).length →
        (addEmbeddingsToHeap
            ([[("content", .str "a"), ("origin", .str "x")]] : Heap Nat)
            [0] [5]).1.getD a []
          = ([[("content", .str "a"), ("origin", .str "x")]] : Heap Nat).getD a [])
    ∧ (∀ a, a < ([[("content", .str "a"), ("origin", .str "x")]] : Heap Nat).length →
        dictGet ((addEmbeddingsToHeap
            ([[("content", .str "a"), ("origin", .str "x")]] : Heap Nat)
            [0] [5]).1.getD a []) "embedding"
          = dictGet (([[("content", .str "a"), ("origin", .str "x")]] : Heap Nat).getD a [])
              "embedding")
    ∧ ((addEmbeddingsToHeap
          ([[("content", .str "a"), ("origin", .str "x")]] : Heap Nat)
          [0] [5]).2).map
          (fun a => (addEmbeddingsToHeap
              ([[("content", .str "a"), ("origin", .str "x")]] : Heap Nat)
              [0] [5]).1.getD a [])
        = zipAddEmbedding
            ([0].map (fun a =>
              ([[("content", .str "a"), ("origin", .str "x")]] : Heap Nat).getD a []))
            [5] :=
  claim_C9_no_mutation _ [0] [5] (by decide)

/-- Claim C10: `get_provider_info` never raises (it is a total function):
for an unknown name (after lowercasing) it returns a dict whose only entry
is an `error` key naming the unsupported provider, and for a known name a
dict with `name`, `class`, `module` and `description` keys and no `error`
key. -/
theorem claim_C10_get_provider_info (name : String) :
    (providersTable.lookup (strLower name) = none →
        get_provider_info name
          = [("error", "Provider " ++ squote ++ strLower name ++ squote
              ++ " not supported")]
        ∧ dictGet (get_provider_info name) "error"
          = some ("Provider " ++ squote ++ strLower name ++ squote ++ " not supported"))
    ∧ ∀ pc, providersTable.lookup (strLower name) = some pc →
        dictGet (get_provider_info name) "name" = some (strLower name)
        ∧ (dictGet (get_provider_info name) "class").isSome
        ∧ (dictGet (get_provider_info name) "module").isSome
        ∧ (dictGet (get_provider_info name) "description").isSome
        ∧ dictGet (get_provider_info name) "error" = none := by
  constructor
  · intro hnone
    constructor
    · simp [get_provider_info, hnone]
    · simp [get_provider_info, hnone, dictGet]
  · intro pc hsome
    simp only [get_provider_info, hsome]
    refine ⟨by simp [dictGet], by simp [dictGet], by simp [dictGet], by simp [dictGet], ?_⟩
    simp [dictGet]

theorem claim_C10_get_provider_info_witness :
    (get_provider_info "FOO"
        = [("error", "Provider " ++ squote ++ "foo" ++ squote ++ " not supported")])
    ∧ dictGet (get_provider_info "OpenAI") "name" = some "openai"
    ∧ (dictGet (get_provider_info "OpenAI") "class").isSome
    ∧ (dictGet (get_provider_info "OpenAI") "module").isSome
    ∧ (dictGet (get_provider_info "OpenAI") "description").isSome
    ∧ dictGet (get_provider_info "OpenAI") "error" = none := by
  have h1 := (claim_C10_get_provider_info "FOO").1 (by decide)
  have h2 := (claim_C10_get_provider_info "OpenAI").2 PClass.openai (by decide)
  exact ⟨h1.1, h2.1, h2.2.1, h2.2.2.1, h2.2.2.2.1, h2.2.2.2.2⟩

/-- Claim C2: for every non-empty record list (with `content` fields, so
that extraction succeeds with `texts`) and every provider whose model info
reports truthy unlimited-batch support, with requested batch size 0,
`process_embeddings` issues exactly one `generate_embeddings` call whose
argument is the list of all records' `content` fields in order, regardless
of the record list's length. -/
theorem claim_C2_single_call {E : Type} (p : ProviderObj E)
    (data : List (Record E)) (texts : List (PyVal E))
    (hs : supportsBatchTruthy p.model_info = true)
    (hne : data ≠ [])
    (hext : extractTexts data = .ok texts) :
    (process_embeddings p data 0).1 = [texts] := by
  rw [process_embeddings_batchall p data 0 ⟨hs, rfl⟩ texts hext]
  cases p.gen texts <;> rfl

theorem claim_C2_single_call_witness :
    (process_embeddings
        ⟨⟨"Google Gemini", "m", 768, some 1, some true⟩,
         fun ts => .ok (ts.map (fun _ => (0 : Nat)))⟩
        [[("content", .str "a"), ("origin", .str "x")],
         [("content", .str "b"), ("origin", .str "y")],
         [("content", .str "c"), ("origin", .str "z")]] 0).1
      = [[.str "a", .str "b", .str "c"]] :=
  claim_C2_single_call _ _ _ rfl (by decide) rfl

/-- Claim C5: a `generate_embeddings` call failing aborts the whole run
with no partial result.  Part one: if any call `process_embeddings` issued
(any entry of its call trace) raised, the whole call propagates an error
instead of returning a result.  Parts two and three: inside the per-item
providers (Gemini, Anthropic), if the underlying API fails on any text of
the call, `generate_embeddings` propagates an error, so embeddings already
computed for earlier texts of the same call are never returned. -/
theorem claim_C5_failure_aborts :
    (∀ (E : Type) (p : ProviderObj E) (data : List (Record E)) (batch_size : Int)
        (ts : List (PyVal E)) (m : Err),
        ts ∈ (process_embeddings p data batch_size).1 → p.gen ts = .error m →
        ∃ m2, (process_embeddings p data batch_size).2 = .error m2)
    ∧ (∀ (E : Type) (api : PyVal E → Except String E) (clientReady : Bool)
        (texts : List (PyVal E)) (t : PyVal E) (e : String),
        t ∈ texts → api t = .error e →
        ∃ m2, (gemini_generate_embeddings api clientReady texts).2 = .error m2)
    ∧ (∀ (E : Type) (api : PyVal E → Except String E) (clientReady : Bool)
        (texts : List (PyVal E)) (t : PyVal E) (e : String),
        t ∈ texts → api t = .error e →
        ∃ m2, (anthropic_generate_embeddings api clientReady texts).2 = .error m2) := by
  refine ⟨?_, ?_, ?_⟩
  · intro E p data batch_size ts m hmem hfail
    by_cases hcond : supportsBatchTruthy p.model_info = true ∧ batch_size = 0
    · obtain ⟨hs, hz⟩ := hcond
      subst hz
      cases hext : extractTexts data with
      | error e =>
          rw [show (process_embeddings p data 0).1 = [] from by
            simp [process_embeddings, hs, hext]] at hmem
          cases hmem
      | ok texts =>
          cases hgen : p.gen texts with
          | error e =>
              exact ⟨e, by simp [process_embeddings, hs, hext, hgen]⟩
          | ok embs =>
              have hts : ts = texts := by
                rw [show (process_embeddings p data 0).1 = [texts] from by
                  simp [process_embeddings, hs, hext, hgen]] at hmem
                simpa using hmem
              subst hts
              rw [hgen] at hfail
              exact Except.noConfusion hfail
    · rw [process_embeddings_chunked p data batch_size hcond] at hmem ⊢
      exact runChunks_fail p.gen _ ts m hmem hfail
  · intro E api clientReady texts t e hmem hfail
    cases hval : validate_texts texts with
    | error err => exact ⟨err, by simp [gemini_generate_embeddings, hval]⟩
    | ok u =>
        rcases perItemLoop_error_of_apiFail api
            "Error generating embeddings with Gemini: " texts t e hmem hfail
          with ⟨m2, hm2⟩
        exact ⟨.provider m2, by simp [gemini_generate_embeddings, hval, hm2]⟩
  · intro E api clientReady texts t e hmem hfail
    cases hval : validate_texts texts with
    | error err => exact ⟨err, by simp [anthropic_generate_embeddings, hval]⟩
    | ok u =>
        rcases perItemLoop_error_of_apiFail api
            "Error generating embeddings with Anthropic: " texts t e hmem hfail
          with ⟨m2, hm2⟩
        exact ⟨.provider m2, by simp [anthropic_generate_embeddings, hval, hm2]⟩

theorem claim_C5_failure_aborts_witness :
    (∃ m2, (process_embeddings
        (⟨⟨"Google Gemini", "m", 768, some 1, some true⟩,
          fun _ => .error (.provider "boom")⟩ : ProviderObj Nat)
        [[("content", .str "a"), ("origin", .str "x")]] 0).2 = .error m2)
    ∧ (∃ m2, (gemini_generate_embeddings
        (fun t => if t = .str "b" then .error "boom" else .ok (0 : Nat)) true
        [.str "a", .str "b"]).2 = .error m2)
    ∧ (∃ m2, (anthropic_generate_embeddings
        (fun t => if t = .str "b" then .error "boom" else .ok (0 : Nat)) true
        [.str "a", .str "b"]).2 = .error m2) :=
  ⟨claim_C5_failure_aborts.1 Nat _ _ 0 [.str "a"] (.provider "boom")
      (by decide) rfl,
   claim_C5_failure_aborts.2.1 Nat _ true _ (.str "b") "boom" (by decide) rfl,
   claim_C5_failure_aborts.2.2 Nat _ true _ (.str "b") "boom" (by decide) rfl⟩

theorem validate_texts_error_shape {E : Type} (ts : List (PyVal E)) (e : Err)
    (h : validate_texts ts = .error e) : ∃ m, e = .validation m := by
  cases ts with
  | nil =>
      refine ⟨"Text list cannot be empty", ?_⟩
      have h2 : Except.error (Err.validation "Text list cannot be empty")
          = (Except.error e : Except Err Unit) := h
      exact (Except.error.inj h2).symm
  | cons t rest =>
      rw [validate_texts_cons] at h
      rcases validateLoop_cases 0 (t :: rest) with hok | ⟨m, hm⟩
      · rw [hok] at h
        exact Except.noConfusion h
      · rw [hm] at h
        refine ⟨m, ?_⟩
        simpa using (Except.error.inj h).symm

/-- Claim C6: for each of the three providers, `generate_embeddings`
raises a `ValidationError` if and only if the input is empty, or some
element is not a string, or some element is blank after trimming
(`badTexts`); and in that case it does so before any observable step —
no client initialisation and no underlying API request (empty event
trace). -/
theorem claim_C6_validation {E : Type} (api : PyVal E → Except String E)
    (apiB : List (PyVal E) → Except String (List E)) (clientReady : Bool)
    (texts : List (PyVal E)) :
    ((∃ m, (gemini_generate_embeddings api clientReady texts).2
        = .error (.validation m)) ↔ badTexts texts)
    ∧ (badTexts texts → (gemini_generate_embeddings api clientReady texts).1 = [])
    ∧ ((∃ m, (anthropic_generate_embeddings api clientReady texts).2
        = .error (.validation m)) ↔ badTexts texts)
    ∧ (badTexts texts → (anthropic_generate_embeddings api clientReady texts).1 = [])
    ∧ ((∃ m, (openai_generate_embeddings apiB clientReady texts).2
        = .error (.validation m)) ↔ badTexts texts)
    ∧ (badTexts texts → (openai_generate_embeddings apiB clientReady texts).1 = []) := by
  cases hval : validate_texts texts with
  | error e =>
      have hbad : badTexts texts := by
        rcases validate_texts_error_shape texts e hval with ⟨m, hm⟩
        exact (validate_texts_error_iff texts).mp ⟨m, by rw [hval, hm]⟩
      rcases validate_texts_error_shape texts e hval with ⟨m, hm⟩
      subst hm
      refine ⟨?_, ?_, ?_, ?_, ?_, ?_⟩
      · exact ⟨fun _ => hbad, fun _ => ⟨m, by simp [gemini_generate_embeddings, hval]⟩⟩
      · intro _; simp [gemini_generate_embeddings, hval]
      · exact ⟨fun _ => hbad, fun _ => ⟨m, by simp [anthropic_generate_embeddings, hval]⟩⟩
      · intro _; simp [anthropic_generate_embeddings, hval]
      · exact ⟨fun _ => hbad, fun _ => ⟨m, by simp [openai_generate_embeddings, hval]⟩⟩
      · intro _; simp [openai_generate_embeddings, hval]
  | ok u =>
      have hgood : ¬ badTexts texts := by
        cases u
        exact (validate_texts_ok_iff texts).mp hval
      refine ⟨?_, fun hb => absurd hb hgood, ?_, fun hb => absurd hb hgood,
        ?_, fun hb => absurd hb hgood⟩
      · constructor
        · intro ⟨m, hm⟩
          exfalso
          rcases perItemLoop_result_cases api
              "Error generating embeddings with Gemini: " texts with ⟨vs, hvs⟩ | ⟨m2, hm2⟩
          · rw [show (gemini_generate_embeddings api clientReady texts).2
                = .ok vs from by simp [gemini_generate_embeddings, hval, hvs]] at hm
            exact Except.noConfusion hm
          · rw [show (gemini_generate_embeddings api clientReady texts).2
                = .error (.provider m2) from by
                  simp [gemini_generate_embeddings, hval, hm2]] at hm
            simp at hm
        · intro hb
          exact absurd hb hgood
      · constructor
        · intro ⟨m, hm⟩
          exfalso
          rcases perItemLoop_result_cases api
              "Error generating embeddings with Anthropic: " texts
            with ⟨vs, hvs⟩ | ⟨m2, hm2⟩
          · rw [show (anthropic_generate_embeddings api clientReady texts).2
                = .ok vs from by simp [anthropic_generate_embeddings, hval, hvs]] at hm
            exact Except.noConfusion hm
          · rw [show (anthropic_generate_embeddings api clientReady texts).2
                = .error (.provider m2) from by
                  simp [anthropic_generate_embeddings, hval, hm2]] at hm
            simp at hm
        · intro hb
          exact absurd hb hgood
      · constructor
        · intro ⟨m, hm⟩
          exfalso
          cases hapi : apiB texts with
          | error e =>
              rw [show (openai_generate_embeddings apiB clientReady texts).2
                  = .error (.provider
                      ("Error generating embeddings with OpenAI: " ++ e)) from by
                    simp [openai_generate_embeddings, hval, hapi]] at hm
              simp at hm
          | ok vs =>
              rw [show (openai_generate_embeddings apiB clientReady texts).2
                  = .ok vs from by simp [openai_generate_embeddings, hval, hapi]] at hm
              exact Except.noConfusion hm
        · intro hb
          exact absurd hb hgood

theorem claim_C6_validation_witness :
    ((gemini_generate_embeddings (fun _ => .ok (0 : Nat)) false [.str "a", .str " "]).1 = [])
    ∧ (∃ m, (gemini_generate_embeddings (fun _ => .ok (0 : Nat)) false
        [.str "a", .str " "]).2 = .error (.validation m))
    ∧ ((anthropic_generate_embeddings (fun _ => .ok (0 : Nat)) false [.num 3]).1 = [])
    ∧ (∃ m, (anthropic_generate_embeddings (fun _ => .ok (0 : Nat)) false
        [.num 3]).2 = .error (.validation m))
    ∧ ((openai_generate_embeddings (fun ts => .ok (ts.map (fun _ => (0 : Nat)))) false
        ([] : List (PyVal Nat))).1 = [])
    ∧ (∃ m, (openai_generate_embeddings (fun ts => .ok (ts.map (fun _ => (0 : Nat)))) false
        ([] : List (PyVal Nat))).2 = .error (.validation m)) :=
  ⟨(claim_C6_validation _ (fun ts => .ok (ts.map (fun _ => (0 : Nat)))) false
      [.str "a", .str " "]).2.1 (by decide),
   (claim_C6_validation _ (fun ts => .ok (ts.map (fun _ => (0 : Nat)))) false
      [.str "a", .str " "]).1.mpr (by decide),
   (claim_C6_validation _ (fun ts => .ok (ts.map (fun _ => (0 : Nat)))) false
      [.num 3]).2.2.2.1 (by decide),
   (claim_C6_validation _ (fun ts => .ok (ts.map (fun _ => (0 : Nat)))) false
      [.num 3]).2.2.1.mpr (by decide),
   (claim_C6_validation (fun _ => .ok (0 : Nat)) _ false
      ([] : List (PyVal Nat))).2.2.2.2.2 (by decide),
   (claim_C6_validation (fun _ => .ok (0 : Nat)) _ false
      ([] : List (PyVal Nat))).2.2.2.2.1.mpr (by decide)⟩

/-- Claim C7: `create_provider` matches the name case-insensitively (it
depends only on the lowercased name); an unknown name yields the
unsupported-provider error whose message lists the valid provider names;
for a known name, a missing API key or missing model (looked up under the
uppercased provider name) yields a configuration error; and a provider is
returned only when both configuration values are present. -/
theorem claim_C7_create_provider (name : String) (config : String → Option String) :
    (∀ name2 : String, strLower name2 = strLower name →
        create_provider name2 config = create_provider name config)
    ∧ (providersTable.lookup (strLower name) = none →
        create_provider name config = .error (.unsupported
          ("Provider " ++ squote ++ strLower name ++ squote
            ++ " not supported. Supported providers: openai, gemini, anthropic")))
    ∧ (∀ pc, providersTable.lookup (strLower name) = some pc →
        config (strUpper (strLower name) ++ "_API_KEY") = none →
        ∃ m, create_provider name config = .error (.configuration m))
    ∧ (∀ pc, providersTable.lookup (strLower name) = some pc →
        config (strUpper (strLower name) ++ "_EMBEDDING_MODEL") = none →
        ∃ m, create_provider name config = .error (.configuration m))
    ∧ ∀ bp, create_provider name config = .ok bp →
        (∃ k, config (strUpper (strLower name) ++ "_API_KEY") = some k)
        ∧ ∃ mo, config (strUpper (strLower name) ++ "_EMBEDDING_MODEL") = some mo := by
  refine ⟨?_, ?_, ?_, ?_, ?_⟩
  · intro name2 h2
    simp only [create_provider, h2]
  · intro hnone
    simp only [create_provider, hnone]
    rw [String.append_assoc]
    rfl
  · intro pc hsome hkey
    refine ⟨"API key for " ++ strLower name ++ " not found in configuration", ?_⟩
    simp [create_provider, hsome, hkey]
  · intro pc hsome hmodel
    cases hkey : config (strUpper (strLower name) ++ "_API_KEY") with
    | none =>
        refine ⟨"API key for " ++ strLower name ++ " not found in configuration", ?_⟩
        simp [create_provider, hsome, hkey]
    | some k =>
        by_cases hk : k = ""
        · refine ⟨"API key for " ++ strLower name ++ " not found in configuration", ?_⟩
          simp [create_provider, hsome, hkey, hk]
        · refine ⟨"Model for " ++ strLower name ++ " not found in configuration", ?_⟩
          simp [create_provider, hsome, hkey, hk, hmodel]
  · intro bp hok
    cases hlook : providersTable.lookup (strLower name) with
    | none => simp [create_provider, hlook] at hok
    | some pc =>
        cases hkey : config (strUpper (strLower name) ++ "_API_KEY") with
        | none => simp [create_provider, hlook, hkey] at hok
        | some k =>
            by_cases hk : k = ""
            · simp [create_provider, hlook, hkey, hk] at hok
            · cases hmodel : config (strUpper (strLower name) ++ "_EMBEDDING_MODEL") with
              | none => simp [create_provider, hlook, hkey, hk, hmodel] at hok
              | some mo =>
                  by_cases hm : mo = ""
                  · simp [create_provider, hlook, hkey, hk, hmodel, hm] at hok
                  · exact ⟨⟨k, rfl⟩, ⟨mo, rfl⟩⟩

theorem claim_C7_create_provider_witness :
    (create_provider "GeMiNi" (fun _ => none)
        = create_provider "gemini" (fun _ => none))
    ∧ (create_provider "foo" (fun _ => none) = .error (.unsupported
        ("Provider " ++ squote ++ "foo" ++ squote
          ++ " not supported. Supported providers: openai, gemini, anthropic")))
    ∧ (∃ m, create_provider "gemini" (fun _ => none)
        = .error (.configuration m))
    ∧ (∃ m, create_provider "gemini"
        (fun key => if key = "GEMINI_API_KEY" then some "k" else none)
        = .error (.configuration m))
    ∧ ((∃ k, (fun key => if key = "GEMINI_API_KEY" then some "k"
          else if key = "GEMINI_EMBEDDING_MODEL" then some "embedding-001" else none)
          ("GEMINI" ++ "_API_KEY") = some k)
       ∧ ∃ mo, (fun key => if key = "GEMINI_API_KEY" then some "k"
          else if key = "GEMINI_EMBEDDING_MODEL" then some "embedding-001" else none)
          ("GEMINI" ++ "_EMBEDDING_MODEL") = some mo) :=
  ⟨(claim_C7_create_provider "gemini" (fun _ => none)).1 "GeMiNi" (by decide),
   (claim_C7_create_provider "foo" (fun _ => none)).2.1 (by decide),
   (claim_C7_create_provider "gemini" (fun _ => none)).2.2.1 PClass.gemini
      (by decide) (by decide),
   (claim_C7_create_provider "gemini"
      (fun key => if key = "GEMINI_API_KEY" then some "k" else none)).2.2.2.1
      PClass.gemini (by decide) (by decide),
   (claim_C7_create_provider "gemini"
      (fun key => if key = "GEMINI_API_KEY" then some "k"
        else if key = "GEMINI_EMBEDDING_MODEL" then some "embedding-001" else none)).2.2.2.2
      ⟨PClass.gemini, "k", "embedding-001"⟩ rfl⟩

/-- Claim C1: for every record list (whose records carry a `content`
field) and every provider that returns one vector per input text — the
provider's behaviour is a pointwise function `g`, so "the vector the
provider produces for the i-th input's content" is well defined —
`process_embeddings` succeeds with one output record per input record, and
the i-th output record is a copy of the i-th input record with every
original field retained plus an `embedding` field holding the provider's
vector for that record's `content`. -/
theorem claim_C1_alignment {E : Type} (p : ProviderObj E) (g : PyVal E → E)
    (hg : ∀ ts, p.gen ts = .ok (ts.map g))
    (data : List (Record E)) (hc : ∀ r ∈ data, (dictGet r "content").isSome)
    (batch_size : Int) :
    ∃ out : List (Record E), (process_embeddings p data batch_size).2 = .ok out
      ∧ out.length = data.length
      ∧ ∀ (i : Nat) (r : Record E), data[i]? = some r →
          ∃ s : Record E, out[i]? = some s
            ∧ s = dictSet r "embedding" (.emb (g (contentD r)))
            ∧ dictGet s "embedding" = some (.emb (g (contentD r)))
            ∧ ∀ k, k ≠ "embedding" → dictGet s k = dictGet r k := by
  refine ⟨data.map (fun r => dictSet r "embedding" (.emb (g (contentD r)))),
    process_embeddings_pointwise p g hg data hc batch_size, by simp, ?_⟩
  intro i r hir
  refine ⟨dictSet r "embedding" (.emb (g (contentD r))), ?_, rfl,
    dictGet_dictSet_self r "embedding" (.emb (g (contentD r))),
    fun k hk => dictGet_dictSet_of_ne r "embedding" k (.emb (g (contentD r))) hk⟩
  rw [List.getElem?_map, hir]
  rfl

def dataC1 : List (Record Nat) :=
  [[("content", .str "a"), ("origin", .str "x")],
   [("content", .str "b"), ("origin", .str "y")]]

def provC1 : ProviderObj Nat :=
  ⟨gemini_get_model_info "embedding-001", fun ts => .ok (ts.map (fun _ => 7))⟩

theorem claim_C1_alignment_witness :
    ∃ out : List (Record Nat), (process_embeddings provC1 dataC1 0).2 = .ok out
      ∧ out.length = dataC1.length
      ∧ ∀ (i : Nat) (r : Record Nat), dataC1[i]? = some r →
          ∃ s : Record Nat, out[i]? = some s
            ∧ s = dictSet r "embedding" (.emb ((fun _ => 7) (contentD r)))
            ∧ dictGet s "embedding" = some (.emb ((fun _ => 7) (contentD r)))
            ∧ ∀ k, k ≠ "embedding" → dictGet s k = dictGet r k :=
  claim_C1_alignment provC1 (fun _ => 7) (fun _ => rfl) dataC1 (by decide) 0

/-- Claim C3: whenever the chunked branch applies — the requested batch
size `N` is positive, or the provider lacks truthy batch support and
`N ≤ 0` (then the default 100 is used) — `process_embeddings` partitions
the records into consecutive chunks of exactly the effective batch size
(the last chunk possibly shorter but never empty), issues exactly
`ceil(L / effectiveBatch)` `generate_embeddings` calls, one per chunk in
input order with that chunk's contents, and zips each chunk's results
back onto that chunk's records (for a pointwise provider `g`, the i-th
output record is the i-th input record plus its embedding). -/
theorem claim_C3_chunking {E : Type} (p : ProviderObj E) (g : PyVal E → E)
    (hg : ∀ ts, p.gen ts = .ok (ts.map g))
    (data : List (Record E)) (hc : ∀ r ∈ data, (dictGet r "content").isSome)
    (batch_size : Int)
    (hb : 0 < batch_size
      ∨ (supportsBatchTruthy p.model_info = false ∧ batch_size ≤ 0)) :
    (process_embeddings p data batch_size).1
        = (chunksOf (effectiveBatch batch_size) data).map (fun c => c.map contentD)
    ∧ (process_embeddings p data batch_size).1.length
        = (data.length + effectiveBatch batch_size - 1) / effectiveBatch batch_size
    ∧ (0 < batch_size → effectiveBatch batch_size = batch_size.toNat)
    ∧ (batch_size ≤ 0 → effectiveBatch batch_size = 100)
    ∧ (chunksOf (effectiveBatch batch_size) data).flatten = data
    ∧ (∀ c ∈ chunksOf (effectiveBatch batch_size) data,
        c ≠ [] ∧ c.length ≤ effectiveBatch batch_size)
    ∧ (∀ i, i + 1 < (chunksOf (effectiveBatch batch_size) data).length →
        ((chunksOf (effectiveBatch batch_size) data).getD i []).length
          = effectiveBatch batch_size)
    ∧ (process_embeddings p data batch_size).2
        = .ok (data.map (fun r => dictSet r "embedding" (.emb (g (contentD r))))) := by
  have hcond : ¬(supportsBatchTruthy p.model_info = true ∧ batch_size = 0) := by
    rcases hb with h1 | ⟨h2, h3⟩
    · exact fun hand => by omega
    · exact fun hand => by rw [h2] at hand; exact Bool.noConfusion hand.1
  have heff := effectiveBatch_ne_zero batch_size
  refine ⟨process_embeddings_trace_pointwise p g hg data hc batch_size hcond, ?_, ?_, ?_,
    chunksOf_flatten _ data heff,
    fun c hcm => chunksOf_mem _ data heff c hcm,
    fun i hi => chunksOf_getD_length _ data heff i hi,
    process_embeddings_pointwise p g hg data hc batch_size⟩
  · rw [process_embeddings_trace_pointwise p g hg data hc batch_size hcond,
      List.length_map, chunksOf_length _ data heff]
  · intro hpos
    unfold effectiveBatch
    rw [if_neg (by omega)]
  · intro hle
    unfold effectiveBatch
    rw [if_pos hle]

def dataC3 : List (Record Nat) :=
  [[("content", .str "a"), ("origin", .str "x")],
   [("content", .str "b"), ("origin", .str "y")],
   [("content", .str "c"), ("origin", .str "z")]]

def provC3 : ProviderObj Nat :=
  ⟨gemini_get_model_info "embedding-001", fun ts => .ok (ts.map (fun _ => 9))⟩

theorem claim_C3_chunking_witness :
    (process_embeddings provC3 dataC3 2).1
        = (chunksOf (effectiveBatch 2) dataC3).map (fun c => c.map contentD)
    ∧ (process_embeddings provC3 dataC3 2).1.length
        = (dataC3.length + effectiveBatch 2 - 1) / effectiveBatch 2
    ∧ ((0 : Int) < 2 → effectiveBatch 2 = (2 : Int).toNat)
    ∧ ((2 : Int) ≤ 0 → effectiveBatch 2 = 100)
    ∧ (chunksOf (effectiveBatch 2) dataC3).flatten = dataC3
    ∧ (∀ c ∈ chunksOf (effectiveBatch 2) dataC3,
        c ≠ [] ∧ c.length ≤ effectiveBatch 2)
    ∧ (∀ i, i + 1 < (chunksOf (effectiveBatch 2) dataC3).length →
        ((chunksOf (effectiveBatch 2) dataC3).getD i []).length = effectiveBatch 2)
    ∧ (process_embeddings provC3 dataC3 2).2
        = .ok (dataC3.map (fun r => dictSet r "embedding"
            (.emb ((fun _ => 9) (contentD r))))) :=
  claim_C3_chunking provC3 (fun _ => 9) (fun _ => rfl) dataC3 (by decide) 2
    (Or.inl (by omega))
